import Mathlib

/-!
# Verification of `pycurl.py` (bulk URL downloader)

Shallow embedding of the repository's two source files (`pycurl.py`,
`test_pycurl.py`) and proofs of the specification claims about them.

The embedding translates, from the source:
* `download` (lines 19-32): the streaming transfer executor;
* `download_all` (lines 35-62): the per-URL exclusive-create / transfer /
  cleanup-on-failure coordinator, over an explicit directory state;
* `_dispatch` (lines 68-89): the bounded-queue worker pool, as a small-step
  transition system over producer/worker/queue configurations;
* `_read_urls` (lines 92-105) and `_is_valid_url` (lines 108-116), together
  with the parts of CPython's `urllib.parse.urlsplit`, `str.strip`, `md5`
  hex digests, UTF-8 encoding and `os.path.join` that those functions call.

Machine integers of the MD5 algorithm are `Nat` with explicit reduction
modulo `2 ^ 32`; Python exceptions are explicit outcome values; the
directory is an association list from paths to file contents.
-/

/-! ## Bytes and UTF-8 encoding (Python `bytearray(url, encoding='utf-8')`) -/

/-- UTF-8 encoding of a single character, as a list of byte values. -/
def utf8Char (c : Char) : List Nat :=
  let n := c.toNat
  if n < 0x80 then [n]
  else if n < 0x800 then
    [0xC0 + n / 64, 0x80 + n % 64]
  else if n < 0x10000 then
    [0xE0 + n / 4096, 0x80 + n / 64 % 64, 0x80 + n % 64]
  else
    [0xF0 + n / 262144, 0x80 + n / 4096 % 64, 0x80 + n / 64 % 64, 0x80 + n % 64]

/-- UTF-8 bytes of a string: Python's `bytearray(s, encoding='utf-8')`. -/
def utf8Bytes (s : String) : List Nat :=
  s.data.foldr (fun c acc => utf8Char c ++ acc) []

/-! ## MD5 (RFC 1321), as used by Python's `hashlib.md5(...).hexdigest()` -/

/-- Reduction modulo `2 ^ 32`: MD5 works on 32-bit words. -/
def m32 (x : Nat) : Nat := x % 4294967296

/-- 32-bit left rotation. -/
def rotl32 (x s : Nat) : Nat := m32 (x <<< s) + (m32 x) >>> (32 - s)

/-- The 64 MD5 sine-table constants `K[i] = floor(2^32 * |sin(i+1)|)`. -/
def md5K : List Nat :=
  [0xd76aa478, 0xe8c7b756, 0x242070db, 0xc1bdceee,
   0xf57c0faf, 0x4787c62a, 0xa8304613, 0xfd469501,
   0x698098d8, 0x8b44f7af, 0xffff5bb1, 0x895cd7be,
   0x6b901122, 0xfd987193, 0xa679438e, 0x49b40821,
   0xf61e2562, 0xc040b340, 0x265e5a51, 0xe9b6c7aa,
   0xd62f105d, 0x02441453, 0xd8a1e681, 0xe7d3fbc8,
   0x21e1cde6, 0xc33707d6, 0xf4d50d87, 0x455a14ed,
   0xa9e3e905, 0xfcefa3f8, 0x676f02d9, 0x8d2a4c8a,
   0xfffa3942, 0x8771f681, 0x6d9d6122, 0xfde5380c,
   0xa4beea44, 0x4bdecfa9, 0xf6bb4b60, 0xbebfbc70,
   0x289b7ec6, 0xeaa127fa, 0xd4ef3085, 0x04881d05,
   0xd9d4d039, 0xe6db99e5, 0x1fa27cf8, 0xc4ac5665,
   0xf4292244, 0x432aff97, 0xab9423a7, 0xfc93a039,
   0x655b59c3, 0x8f0ccc92, 0xffeff47d, 0x85845dd1,
   0x6fa87e4f, 0xfe2ce6e0, 0xa3014314, 0x4e0811a1,
   0xf7537e82, 0xbd3af235, 0x2ad7d2bb, 0xeb86d391]

/-- Per-round shift amounts. -/
def md5S (i : Nat) : Nat :=
  (if i < 16 then [7, 12, 17, 22]
   else if i < 32 then [5, 9, 14, 20]
   else if i < 48 then [4, 11, 16, 23]
   else [6, 10, 15, 21]).getD (i % 4) 0

/-- Round functions F, G, H, I on 32-bit words. -/
def md5F (i b c d : Nat) : Nat :=
  if i < 16 then (b &&& c) ||| ((b ^^^ 4294967295) &&& d)
  else if i < 32 then (b &&& d) ||| (c &&& (d ^^^ 4294967295))
  else if i < 48 then b ^^^ c ^^^ d
  else c ^^^ (b ||| (d ^^^ 4294967295))

/-- Message-word index used in round `i`. -/
def md5G (i : Nat) : Nat :=
  if i < 16 then i
  else if i < 32 then (5 * i + 1) % 16
  else if i < 48 then (3 * i + 5) % 16
  else (7 * i) % 16

/-- One of the 64 operations of a block: rotate the register tuple. -/
def md5Round (M : List Nat) (st : Nat × Nat × Nat × Nat) (i : Nat) :
    Nat × Nat × Nat × Nat :=
  let a := st.1; let b := st.2.1; let c := st.2.2.1; let d := st.2.2.2
  let f := md5F i b c d
  let rot := rotl32 (m32 (a + f + md5K.getD i 0 + M.getD (md5G i) 0)) (md5S i)
  (d, m32 (b + rot), b, c)

/-- Little-endian 32-bit words of a byte list (4 bytes per word). -/
def leWords : List Nat → List Nat
  | b0 :: b1 :: b2 :: b3 :: rest =>
    (b0 + 256 * b1 + 65536 * b2 + 16777216 * b3) :: leWords rest
  | _ => []

/-- Process one 64-byte block. -/
def md5Block (st : Nat × Nat × Nat × Nat) (block : List Nat) :
    Nat × Nat × Nat × Nat :=
  let M := leWords block
  let r := (List.range 64).foldl (md5Round M) st
  (m32 (st.1 + r.1), m32 (st.2.1 + r.2.1),
   m32 (st.2.2.1 + r.2.2.1), m32 (st.2.2.2 + r.2.2.2))

/-- MD5 padding: append `0x80`, zeros to 56 mod 64, then the 64-bit
little-endian bit length. -/
def padMsg (msg : List Nat) : List Nat :=
  let len := msg.length
  let k := (55 + 64 - len % 64) % 64
  let bitLen := 8 * len
  msg ++ [0x80] ++ List.replicate k 0 ++
    [bitLen % 256, bitLen >>> 8 % 256, bitLen >>> 16 % 256, bitLen >>> 24 % 256,
     bitLen >>> 32 % 256, bitLen >>> 40 % 256, bitLen >>> 48 % 256,
     bitLen >>> 56 % 256]

/-- Split a byte list into 64-byte blocks (fuel-driven structural recursion;
the fuel is the list length, which bounds the number of blocks). -/
def chunks64Aux : Nat → List Nat → List (List Nat)
  | 0, _ => []
  | _, [] => []
  | fuel + 1, b :: bs => (b :: bs).take 64 :: chunks64Aux fuel ((b :: bs).drop 64)

/-- Split a byte list into 64-byte blocks. -/
def chunks64 (l : List Nat) : List (List Nat) := chunks64Aux l.length l

/-- Little-endian bytes of one 32-bit word. -/
def wordBytes (w : Nat) : List Nat :=
  [w % 256, w >>> 8 % 256, w >>> 16 % 256, w >>> 24 % 256]

/-- The 16-byte MD5 digest of a byte list. -/
def md5Digest (msg : List Nat) : List Nat :=
  let st := (chunks64 (padMsg msg)).foldl md5Block
    (0x67452301, 0xefcdab89, 0x98badcfe, 0x10325476)
  wordBytes st.1 ++ wordBytes st.2.1 ++ wordBytes st.2.2.1 ++ wordBytes st.2.2.2

/-- The sixteen lowercase hexadecimal digit characters. -/
def hexDigits : String := "0123456789abcdef"

/-- Lowercase hex character of a value below 16. -/
def hexDig (n : Nat) : Char := hexDigits.data.getD n '0'

/-- Two lowercase hex characters per byte, as `hexdigest` produces. -/
def hexOfBytes : List Nat → List Char
  | [] => []
  | b :: bs => hexDig (b / 16) :: hexDig (b % 16) :: hexOfBytes bs

/-- Python's `md5(bytes).hexdigest()`: the lowercase-hex MD5 digest. -/
def md5Hex (msg : List Nat) : String := String.mk (hexOfBytes (md5Digest msg))

/-! ## Destination paths (`pycurl.py` lines 47-49) -/

/-- Python `posixpath.join(a, b)` for two components: if `b` is absolute it
replaces `a`; otherwise a `'/'` separator is inserted unless `a` is empty or
already ends with one. -/
def pathJoin (a b : String) : String :=
  if ['/'].isPrefixOf b.data then b
  else if a = "" ∨ ['/'].isSuffixOf a.data then a ++ b
  else a ++ "/" ++ b

/-- Destination path of a URL (lines 48-49):
`os.path.join(download_directory, md5(bytearray(url, 'utf-8')).hexdigest())`. -/
def dstPath (dir url : String) : String := pathJoin dir (md5Hex (utf8Bytes url))

/-! ## The download directory state

The directory is an association list from file paths to file contents
(contents as strings of bytes).  `open(dst, 'xb')` succeeds exactly when the
path is absent; `os.remove` deletes the entry. -/

/-- Lookup of a path in the directory. -/
def fsLookup : List (String × String) → String → Option String
  | [], _ => none
  | (p, c) :: fs, q => if p = q then some c else fsLookup fs q

/-- Model of `os.remove`: delete the entry at a path. -/
def fsRemove : List (String × String) → String → List (String × String)
  | [], _ => []
  | (p, c) :: fs, q => if p = q then fsRemove fs q else (p, c) :: fsRemove fs q

/-! ## Python exceptions relevant to `download_all` (lines 50-62) -/

/-- The exception categories distinguished by the `try`/`except` clauses of
`download_all`.  `fileExists` is `FileExistsError` (a subclass of `OSError =
IOError`), `requestExc` is `requests.RequestException` (which `Timeout` and
`ConnectionError` subclass), `httpExc` is `urllib3.exceptions.HTTPError`,
`ioExc` is any other `IOError`/`OSError`, and `otherExc` is any remaining
`Exception`. -/
inductive PyExc
  | fileExists
  | requestExc
  | httpExc
  | ioExc
  | otherExc
deriving DecidableEq

/-- The observable behaviour of one call `downloader(url, f)`: the next
downloader state, the bytes the call wrote into the open file before
returning or raising, and the exception it raised (`none` = returned
normally). -/
structure DlCall (σ : Type) where
  state : σ
  written : String
  raised : Option PyExc

/-- One iteration of the `download_all` loop for one URL (lines 46-62),
acting on `(downloader state, directory, invocation log)`.  The invocation
log records each URL for which `downloader` was actually called.

* `open(dst, 'xb')` (line 51) raises `FileExistsError` when `dst` exists;
  the handler on lines 54-55 only logs, so the state is unchanged and the
  downloader is not invoked.
* On successful creation the downloader runs with the file open; whatever it
  wrote is on disk when the `with` block closes the file.
* If it raised, the matching handler runs: `except FileExistsError`
  (line 54) does **not** remove the file, while the handlers on lines 56-62
  (`requests.RequestException`, `HTTPError`, `IOError`, and the catch-all
  `Exception`) run `os.remove(dst)`. -/
def downloadStep {σ : Type} (dl : σ → String → DlCall σ) (dir : String)
    (acc : σ × List (String × String) × List String) (url : String) :
    σ × List (String × String) × List String :=
  let s := acc.1
  let fs := acc.2.1
  let log := acc.2.2
  let dst := dstPath dir url
  match fsLookup fs dst with
  | some _ => (s, fs, log)
  | none =>
    let r := dl s url
    let fs1 := (dst, r.written) :: fs
    match r.raised with
    | none => (r.state, fs1, log ++ [url])
    | some PyExc.fileExists => (r.state, fs1, log ++ [url])
    | some _ => (r.state, fsRemove fs1 dst, log ++ [url])

/-- The loop of `download_all` (lines 46-62) over the whole URL list,
starting with an empty invocation log. -/
def downloadAllLoop {σ : Type} (urls : List String) (dir : String)
    (dl : σ → String → DlCall σ) (s0 : σ) (fs0 : List (String × String)) :
    σ × List (String × String) × List String :=
  urls.foldl (downloadStep dl dir) (s0, fs0, [])

/-- Model of `download_all` (lines 35-62).  `os.makedirs(download_directory,
exist_ok=True)` on line 45 is the only statement outside the per-URL
`try`/`except`; `mkdirOk` records whether it succeeds, and its failure is the
only way the function raises. -/
def download_all {σ : Type} (mkdirOk : Bool) (urls : List String)
    (dir : String) (dl : σ → String → DlCall σ) (s0 : σ)
    (fs0 : List (String × String)) :
    Except Unit (σ × List (String × String) × List String) :=
  if mkdirOk then Except.ok (downloadAllLoop urls dir dl s0 fs0)
  else Except.error ()

/-! ## The transfer executor `download` (lines 19-32) -/

/-- Failures `download` can raise: `requests.exceptions.HTTPError` from
`raise_for_status` carrying the status code, a transport failure
(`ConnectionError`, DNS failure, unsupported scheme), or `Timeout` before the
server starts sending data. -/
inductive TransferExc
  | httpStatus (code : Nat)
  | transport
  | timedOut
deriving DecidableEq

/-- What `requests.get(url, timeout=..., verify=..., stream=True)` produced:
either a final response (status code, the body chunks that the server
delivered, and `bodyErr` - an exception raised while iterating the body after
those chunks, `none` when the body completed), or a transport failure, or a
timeout before the first byte. -/
inductive HttpAttempt
  | response (status : Nat) (chunks : List String) (bodyErr : Option TransferExc)
  | connFailure
  | timeout

/-- Model of `download` (lines 29-32): perform the GET, call `r.raise_for_status()`,
then stream the body chunks into the sink.  Returns the final sink contents
and the exception raised, if any.  Per `requests`' documented semantics,
`raise_for_status` raises `HTTPError` exactly when the status code is in the
4xx or 5xx range (`400 <= status < 600`); no body chunk is read before that
check, so the sink is untouched on that path. -/
def download (r : HttpAttempt) (sink : String) : String × Option TransferExc :=
  match r with
  | HttpAttempt.connFailure => (sink, some TransferExc.transport)
  | HttpAttempt.timeout => (sink, some TransferExc.timedOut)
  | HttpAttempt.response status chunks bodyErr =>
    if 400 ≤ status ∧ status < 600 then (sink, some (TransferExc.httpStatus status))
    else (chunks.foldl (fun acc c => acc ++ c) sink, bodyErr)

/-! ## `urllib.parse` model and `_is_valid_url` (lines 108-116)

`_is_valid_url` destructures `urlparse(s)` and uses only `scheme` and
`netloc`; `urlparse` computes those two fields exactly as `urlsplit` does
(the extra `params` split of `urlparse` only affects the path field).  The
model below follows CPython's `urllib.parse.urlsplit`: strip leading
C0-control/space characters, remove tab/CR/LF everywhere, split off a scheme
`[alpha][alnum+-.]*` before the first `':'` (lowercasing it), then take the
authority after a leading `"//"` up to the first `'/'`, `'?'` or `'#'`,
raising `ValueError` on an unmatched `'['`/`']'` in the authority. -/

/-- WHATWG C0-control-or-space class stripped from the front of the URL. -/
def c0ControlOrSpace (c : Char) : Bool := c.toNat ≤ 0x20

/-- The unsafe bytes removed from the URL (`'\t'`, `'\r'`, `'\n'`). -/
def unsafeUrlChar (c : Char) : Bool := c = '\t' ∨ c = '\r' ∨ c = '\n'

/-- Membership in `scheme_chars`: ASCII letters, digits and `'+'`, `'-'`, `'.'`. -/
def schemeChar (c : Char) : Bool :=
  c.isAlpha ∨ c.isDigit ∨ c = '+' ∨ c = '-' ∨ c = '.'

/-- ASCII lowercasing, which is what `str.lower()` does on the all-ASCII
strings that pass the `scheme_chars` check. -/
def asciiLower (c : Char) : Char :=
  if 'A' ≤ c ∧ c ≤ 'Z' then Char.ofNat (c.toNat + 32) else c

/-- The scheme split: if the first `':'` is at a positive index, the first
character is an ASCII letter and everything before the `':'` is in
`scheme_chars`, the lowercased prefix is the scheme and parsing continues
after the `':'`; otherwise the scheme is empty and the URL is unchanged. -/
def splitScheme (cs : List Char) : List Char × List Char :=
  match cs.findIdx? (fun c => c = ':') with
  | some i =>
    if 0 < i ∧ (cs.take i).all schemeChar ∧ (cs.head?.map Char.isAlpha = some true) then
      ((cs.take i).map asciiLower, cs.drop (i + 1))
    else ([], cs)
  | none => ([], cs)

/-- A character ending the netloc (`_splitnetloc` stops at `/`, `?`, `#`). -/
def netlocDelim (c : Char) : Bool := c = '/' ∨ c = '?' ∨ c = '#'

/-- Model of `urlsplit`, restricted to the `(scheme, netloc)` fields that
`_is_valid_url` consumes; `Except.error ()` is the `ValueError` raised for an
invalid IPv6 URL (unmatched bracket in the authority). -/
def urlsplitSN (s : String) : Except Unit (String × String) :=
  let cs0 := s.data.dropWhile c0ControlOrSpace
  let cs := cs0.filter (fun c => ! unsafeUrlChar c)
  let sr := splitScheme cs
  let scheme := sr.1
  let rest := sr.2
  if rest.take 2 = ['/', '/'] then
    let netloc := (rest.drop 2).takeWhile (fun c => ! netlocDelim c)
    if ('[' ∈ netloc ∧ ']' ∉ netloc) ∨ (']' ∈ netloc ∧ '[' ∉ netloc) then
      Except.error ()
    else
      Except.ok (String.mk scheme, String.mk netloc)
  else Except.ok (String.mk scheme, "")

/-- Model of `_is_valid_url` (lines 108-116).  Line 116 is `return scheme and netloc`:
Python's `and` returns its first operand when that operand is falsy and its
second operand otherwise, so the function returns the *string* `''` when the
scheme is empty and the *string* `netloc` otherwise - not a `bool`. -/
def isValidUrlPy (s : String) : Except Unit String :=
  match urlsplitSN s with
  | Except.error e => Except.error e
  | Except.ok (scheme, netloc) =>
    Except.ok (if scheme = "" then scheme else netloc)

/-- Python truthiness of a `str`: nonemptiness.  This is how call sites
(`if _is_valid_url(...)`) and the tests (`assertTrue`/`assertFalse`)
interpret the returned value. -/
def pyTruthy (s : String) : Bool := s ≠ ""

/-- Result of `_is_valid_url` followed by the truthiness test applied at its call
site in `_read_urls` (line 102). -/
def isValidUrlBool (s : String) : Except Unit Bool :=
  Except.map pyTruthy (isValidUrlPy s)

/-! ## `_read_urls` (lines 92-105) -/

/-- Characters for which Python's `str.isspace()` holds (the set stripped by
`str.strip()` with no argument): ASCII whitespace, the C1 separators, NBSP
and the Unicode space/line/paragraph separators. -/
def pyWhitespace (c : Char) : Bool :=
  c.toNat ∈ [0x09, 0x0A, 0x0B, 0x0C, 0x0D, 0x1C, 0x1D, 0x1E, 0x1F, 0x20,
    0x85, 0xA0, 0x1680, 0x2000, 0x2001, 0x2002, 0x2003, 0x2004, 0x2005,
    0x2006, 0x2007, 0x2008, 0x2009, 0x200A, 0x2028, 0x2029, 0x202F,
    0x205F, 0x3000]

/-- Python `line.strip()`: drop leading and trailing whitespace. -/
def pyStrip (s : String) : String :=
  String.mk (((s.data.dropWhile pyWhitespace).reverse.dropWhile
    pyWhitespace).reverse)

/-- Model of `_read_urls` (lines 92-105) over a list of input lines: strip each line,
silently skip it if the stripped form is empty, yield the stripped form if
`_is_valid_url` is truthy on it, and otherwise log an error and skip it.  A
`ValueError` escaping `_is_valid_url` propagates out of the generator. -/
def readUrls : List String → Except Unit (List String)
  | [] => Except.ok []
  | line :: ls =>
    let t := pyStrip line
    if t = "" then readUrls ls
    else
      match isValidUrlBool t with
      | Except.error e => Except.error e
      | Except.ok true => Except.map (fun ys => t :: ys) (readUrls ls)
      | Except.ok false => readUrls ls

/-! ## The dispatcher `_dispatch` (lines 68-89)

`_dispatch` shares a `Queue(maxsize=num_threads)` between the calling thread
(the producer) and `num_threads` worker threads.  Each worker runs
`consumer(iter(queue.get, sentinel))`: it pops items sequentially and
terminates when it pops the sentinel (per the docstring contract on lines
72-73, the consumer never raises).  The producer pushes every job in order
(lines 85-86), then one sentinel per worker (line 88), then joins every
worker (line 89).

This is modelled as a small-step transition system over configurations; the
`pushed` field is the history of values the producer has put on the queue. -/

/-- A configuration of `_dispatch` with `num_threads = n` workers:
the producer's remaining jobs (`toPush`) and remaining sentinels
(`sentinels`), the queue contents (`none` is the sentinel), the number of
workers that have observed the sentinel and terminated (`done`), whether the
final joins have completed (`joined`), and the history of produced values
(`pushed`). -/
structure DConfig (T : Type) where
  toPush : List T
  sentinels : Nat
  queue : List (Option T)
  done : Nat
  joined : Bool
  pushed : List (Option T)
deriving DecidableEq

/-- The initial configuration: all jobs pending, one sentinel per worker
pending, empty queue, all workers running (workers are started on line 83
before any job is enqueued). -/
def dInit {T : Type} (jobs : List T) (n : Nat) : DConfig T :=
  ⟨jobs, n, [], 0, false, []⟩

/-- Guard of `queue.put`: it blocks while the queue holds `maxsize = n` items (for
`n = 0` a Python `Queue` is unbounded). -/
def putReady {T : Type} (n : Nat) (c : DConfig T) : Prop :=
  0 < n → c.queue.length < n

/-- One step of `_dispatch` with `n` workers.

* `pushJob`: lines 85-86, the producer enqueues the next job;
* `pushSentinel`: line 88, after all jobs, the producer enqueues a sentinel;
* `popJob`: a running worker's `iter(queue.get, sentinel)` yields a job and
  the consumer processes it;
* `popSentinel`: a running worker pops the sentinel; its iterator stops and
  the worker terminates;
* `join`: line 89, once every worker has terminated, the producer's joins
  all return and `_dispatch` returns. -/
inductive DStep {T : Type} (n : Nat) : DConfig T → DConfig T → Prop
  | pushJob (c : DConfig T) (j : T) (rest : List T) :
      c.toPush = j :: rest → putReady n c →
      DStep n c { c with toPush := rest, queue := c.queue ++ [some j],
                         pushed := c.pushed ++ [some j] }
  | pushSentinel (c : DConfig T) (k : Nat) :
      c.toPush = [] → c.sentinels = k + 1 → putReady n c →
      DStep n c { c with sentinels := k, queue := c.queue ++ [none],
                         pushed := c.pushed ++ [none] }
  | popJob (c : DConfig T) (j : T) (q : List (Option T)) :
      c.queue = some j :: q → c.done < n →
      DStep n c { c with queue := q }
  | popSentinel (c : DConfig T) (q : List (Option T)) :
      c.queue = none :: q → c.done < n →
      DStep n c { c with queue := q, done := c.done + 1 }
  | join (c : DConfig T) :
      c.toPush = [] → c.sentinels = 0 → c.done = n → c.joined = false →
      DStep n c { c with joined := true }

/-- Configurations reachable from the start of `_dispatch jobs _ n`. -/
def DReach {T : Type} (jobs : List T) (n : Nat) (c : DConfig T) : Prop :=
  Relation.ReflTransGen (DStep n) (dInit jobs n) c

/-- Number of sentinels currently in the queue. -/
def countNone {T : Type} (l : List (Option T)) : Nat :=
  l.countP (fun x => x.isNone)

/-- The inductive invariant of `_dispatch`: sentinel conservation (every one
of the `n` sentinels is pending, queued, or consumed by a terminated
worker), sentinels are produced only after all jobs, the production history
combined with the pending work is exactly the job list followed by the `n`
sentinels, and `joined` implies the producer finished and every worker
terminated. -/
def DInv {T : Type} (jobs : List T) (n : Nat) (c : DConfig T) : Prop :=
  c.done + c.sentinels + countNone c.queue = n ∧
  (c.toPush ≠ [] → c.sentinels = n) ∧
  c.pushed ++ c.toPush.map some ++ List.replicate c.sentinels none =
    jobs.map some ++ List.replicate n none ∧
  (c.joined = true → c.toPush = [] ∧ c.sentinels = 0 ∧ c.done = n)

/-- Termination measure: every `DStep` strictly decreases it. -/
def dMeasure {T : Type} (n : Nat) (c : DConfig T) : Nat :=
  2 * c.toPush.length + 2 * c.sentinels + c.queue.length + (n - c.done) +
    (if c.joined then 0 else 1)

/-! ## Concrete downloader doubles (mirroring `test_pycurl.py`) -/

/-- A downloader that writes some bytes into the open file and then raises
`FileExistsError` (an `IOError` subclass). -/
def dlRaisesFileExists : Unit → String → DlCall Unit :=
  fun _ _ => ⟨(), "par", some PyExc.fileExists⟩

/-- A counting downloader that writes some bytes and always raises
`IOError` (`broken_downloader` of test lines 142-144, which also counts). -/
def dlAlwaysIOError : Nat → String → DlCall Nat :=
  fun n _ => ⟨n + 1, "foobar", some PyExc.ioExc⟩

/-- The counting downloader of test lines 127-133: writes `b'foobar'` and
returns normally. -/
def dlFoobar : Nat → String → DlCall Nat :=
  fun n _ => ⟨n + 1, "foobar", none⟩

/-- The counting downloader of test lines 152-161: raises `IOError` on its
first invocation and writes `b'foobar'` on later ones. -/
def dlFailFirst : Nat → String → DlCall Nat :=
  fun n _ => if n = 0 then ⟨1, "", some PyExc.ioExc⟩ else ⟨n + 1, "foobar", none⟩

set_option maxRecDepth 100000

/-- RFC 1321 test vector: the MD5 of the empty message. -/
theorem md5Hex_empty : md5Hex (utf8Bytes "") = "d41d8cd98f00b204e9800998ecf8427e" := by
  decide

/-- RFC 1321 test vector: the MD5 of `"a"`. -/
theorem md5Hex_a : md5Hex (utf8Bytes "a") = "0cc175b9c0f1b6a831c399e269772661" := by
  decide

/-- RFC 1321 test vector: the MD5 of `"abc"`. -/
theorem md5Hex_abc : md5Hex (utf8Bytes "abc") = "900150983cd24fb0d6963f7d28e17f72" := by
  decide

/-! ## Helper lemmas: the directory association list -/

theorem fsRemove_of_lookup_none {fs : List (String × String)} {p : String}
    (h : fsLookup fs p = none) : fsRemove fs p = fs := by
  induction fs with
  | nil => rfl
  | cons e fs ih =>
    obtain ⟨q, c⟩ := e
    by_cases hq : q = p
    · simp [fsLookup, hq] at h
    · simp only [fsLookup, if_neg hq] at h
      simp [fsRemove, hq, ih h]

theorem fsLookup_fsRemove_self (fs : List (String × String)) (p : String) :
    fsLookup (fsRemove fs p) p = none := by
  induction fs with
  | nil => rfl
  | cons e fs ih =>
    obtain ⟨q, c⟩ := e
    by_cases hq : q = p
    · simp [fsRemove, hq, ih]
    · simp [fsRemove, fsLookup, hq, ih]

theorem fsLookup_fsRemove_ne {p q : String} (fs : List (String × String))
    (h : p ≠ q) : fsLookup (fsRemove fs q) p = fsLookup fs p := by
  induction fs with
  | nil => rfl
  | cons e fs ih =>
    obtain ⟨r, c⟩ := e
    have hqp : q ≠ p := fun e => h e.symm
    by_cases hr : r = q
    · simp [fsRemove, fsLookup, hr, hqp, ih]
    · by_cases hp : r = p
      · simp [fsRemove, fsLookup, hr, hp, h]
      · simp [fsRemove, fsLookup, hr, hp, ih]

/-! ## Helper lemmas: one iteration of the `download_all` loop -/

theorem downloadStep_skip {σ : Type} {dl : σ → String → DlCall σ}
    {dir url : String} {s : σ} {fs : List (String × String)}
    {log : List String} {v : String}
    (h : fsLookup fs (dstPath dir url) = some v) :
    downloadStep dl dir (s, fs, log) url = (s, fs, log) := by
  simp [downloadStep, h]

theorem downloadStep_ok {σ : Type} {dl : σ → String → DlCall σ}
    {dir url : String} {s : σ} {fs : List (String × String)}
    {log : List String}
    (h : fsLookup fs (dstPath dir url) = none)
    (hr : (dl s url).raised = none) :
    downloadStep dl dir (s, fs, log) url =
      ((dl s url).state, (dstPath dir url, (dl s url).written) :: fs,
        log ++ [url]) := by
  simp [downloadStep, h, hr]

theorem downloadStep_fileExists {σ : Type} {dl : σ → String → DlCall σ}
    {dir url : String} {s : σ} {fs : List (String × String)}
    {log : List String}
    (h : fsLookup fs (dstPath dir url) = none)
    (hr : (dl s url).raised = some PyExc.fileExists) :
    downloadStep dl dir (s, fs, log) url =
      ((dl s url).state, (dstPath dir url, (dl s url).written) :: fs,
        log ++ [url]) := by
  simp [downloadStep, h, hr]

theorem downloadStep_fail {σ : Type} {dl : σ → String → DlCall σ}
    {dir url : String} {s : σ} {fs : List (String × String)}
    {log : List String} {k : PyExc}
    (h : fsLookup fs (dstPath dir url) = none)
    (hr : (dl s url).raised = some k) (hk : k ≠ PyExc.fileExists) :
    downloadStep dl dir (s, fs, log) url = ((dl s url).state, fs, log ++ [url]) := by
  have hrm : fsRemove ((dstPath dir url, (dl s url).written) :: fs)
      (dstPath dir url) = fs := by
    simp [fsRemove, fsRemove_of_lookup_none h]
  cases k with
  | fileExists => exact absurd rfl hk
  | requestExc => simp [downloadStep, h, hr, hrm]
  | httpExc => simp [downloadStep, h, hr, hrm]
  | ioExc => simp [downloadStep, h, hr, hrm]
  | otherExc => simp [downloadStep, h, hr, hrm]

/-- Files present before an iteration survive it unchanged: the only removal
an iteration performs is of the path it itself just created. -/
theorem downloadStep_frame {σ : Type} {dl : σ → String → DlCall σ}
    {dir url : String} {acc : σ × List (String × String) × List String}
    {p v : String} (h : fsLookup acc.2.1 p = some v) :
    fsLookup (downloadStep dl dir acc url).2.1 p = some v := by
  obtain ⟨s, fs, log⟩ := acc
  simp only at h
  cases hdst : fsLookup fs (dstPath dir url) with
  | some w => rw [downloadStep_skip hdst]; exact h
  | none =>
    have hne : dstPath dir url ≠ p := fun e => by rw [e, h] at hdst; cases hdst
    cases hr : (dl s url).raised with
    | none => rw [downloadStep_ok hdst hr]; simp [fsLookup, hne, h]
    | some k =>
      by_cases hk : k = PyExc.fileExists
      · subst hk
        rw [downloadStep_fileExists hdst hr]; simp [fsLookup, hne, h]
      · rw [downloadStep_fail hdst hr hk]; exact h

/-- Frame property over the whole loop: any file present in the accumulator
directory is still present, with the same contents, after the rest of the
URLs are processed. -/
theorem downloadFold_frame {σ : Type} {dl : σ → String → DlCall σ}
    {dir : String} (urls : List String)
    (acc : σ × List (String × String) × List String) {p v : String}
    (h : fsLookup acc.2.1 p = some v) :
    fsLookup ((urls.foldl (downloadStep dl dir) acc).2.1) p = some v := by
  induction urls generalizing acc with
  | nil => exact h
  | cons u rest ih =>
    rw [List.foldl_cons]
    exact ih _ (downloadStep_frame h)

/-- The invocation log component only grows, by whole-URL appends. -/
theorem downloadFold_log {σ : Type} {dl : σ → String → DlCall σ}
    {dir : String} (urls : List String)
    (acc : σ × List (String × String) × List String) :
    ∃ t, (urls.foldl (downloadStep dl dir) acc).2.2 = acc.2.2 ++ t := by
  induction urls generalizing acc with
  | nil => exact ⟨[], by simp⟩
  | cons u rest ih =>
    rw [List.foldl_cons]
    obtain ⟨s, fs, log⟩ := acc
    cases hdst : fsLookup fs (dstPath dir u) with
    | some w =>
      rw [downloadStep_skip hdst]
      exact ih _
    | none =>
      have hstep : (downloadStep dl dir (s, fs, log) u).2.2 = log ++ [u] := by
        cases hr : (dl s u).raised with
        | none => rw [downloadStep_ok hdst hr]
        | some k =>
          by_cases hk : k = PyExc.fileExists
          · subst hk; rw [downloadStep_fileExists hdst hr]
          · rw [downloadStep_fail hdst hr hk]
      obtain ⟨t, ht⟩ := ih (downloadStep dl dir (s, fs, log) u)
      refine ⟨u :: t, ?_⟩
      rw [ht, hstep]
      simp

/-- An iteration either leaves the invocation log unchanged (dedup skip) or
appends exactly the URL it invoked the downloader on. -/
theorem downloadStep_log_cases {σ : Type} (dl : σ → String → DlCall σ)
    (dir url : String) (s : σ) (fs : List (String × String))
    (log : List String) :
    (downloadStep dl dir (s, fs, log) url).2.2 = log ∨
    (downloadStep dl dir (s, fs, log) url).2.2 = log ++ [url] := by
  cases hdst : fsLookup fs (dstPath dir url) with
  | some w => left; rw [downloadStep_skip hdst]
  | none =>
    right
    cases hr : (dl s url).raised with
    | none => rw [downloadStep_ok hdst hr]
    | some k =>
      by_cases hk : k = PyExc.fileExists
      · subst hk; rw [downloadStep_fileExists hdst hr]
      · rw [downloadStep_fail hdst hr hk]

/-- Dedup upper bound: with a downloader that never raises, the rest of the
loop invokes the downloader on `u` at most once, and not at all when the
destination of `u` already exists. -/
theorem downloadFold_count_le {σ : Type} {dl : σ → String → DlCall σ}
    {dir : String} (hdl : ∀ s w, (dl s w).raised = none) (u : String) :
    ∀ (urls : List String) (acc : σ × List (String × String) × List String),
      ((urls.foldl (downloadStep dl dir) acc).2.2).count u ≤
        acc.2.2.count u +
          (if fsLookup acc.2.1 (dstPath dir u) = none then 1 else 0) := by
  intro urls
  induction urls with
  | nil =>
    intro acc
    split <;> simp
  | cons v rest ih =>
    intro acc
    obtain ⟨s, fs, log⟩ := acc
    rw [List.foldl_cons]
    cases hdst : fsLookup fs (dstPath dir v) with
    | some w =>
      rw [downloadStep_skip hdst]
      exact ih (s, fs, log)
    | none =>
      rw [downloadStep_ok hdst (hdl s v)]
      refine le_trans (ih _) ?_
      simp only
      by_cases hvu : v = u
      · subst hvu
        simp [fsLookup, hdst, List.count_append]
      · have hcount : (log ++ [v]).count u = log.count u := by
          simp [List.count_append, List.count_cons, hvu]
        rw [hcount]
        by_cases hdd : dstPath dir v = dstPath dir u
        · simp only [fsLookup, if_pos hdd]
          simp
        · simp only [fsLookup, if_neg hdd]
          exact le_rfl

/-- Dedup lower bound: with a downloader that never raises, if `u` occurs in
the remaining URLs, its destination is still absent, and no other URL in the
list hashes to the same destination, then the downloader is invoked on `u` at
least once more. -/
theorem downloadFold_count_ge {σ : Type} {dl : σ → String → DlCall σ}
    {dir : String} (hdl : ∀ s w, (dl s w).raised = none) (u : String) :
    ∀ (urls : List String) (acc : σ × List (String × String) × List String),
      u ∈ urls →
      (∀ v ∈ urls, dstPath dir v = dstPath dir u → v = u) →
      fsLookup acc.2.1 (dstPath dir u) = none →
      acc.2.2.count u + 1 ≤ ((urls.foldl (downloadStep dl dir) acc).2.2).count u := by
  intro urls
  induction urls with
  | nil => intro acc h; cases h
  | cons v rest ih =>
    intro acc hmem hcol hnone
    obtain ⟨s, fs, log⟩ := acc
    simp only at hnone
    rw [List.foldl_cons]
    by_cases hvu : v = u
    · subst hvu
      rw [downloadStep_ok hnone (hdl s v)]
      obtain ⟨t, ht⟩ := downloadFold_log rest ((dl s v).state,
        (dstPath dir v, (dl s v).written) :: fs, log ++ [v])
      rw [ht]
      simp [List.count_append, List.count_cons]
    · have hmem' : u ∈ rest := by
        cases hmem with
        | head => exact absurd rfl hvu
        | tail _ h => exact h
      have hcol' : ∀ w ∈ rest, dstPath dir w = dstPath dir u → w = u :=
        fun w hw => hcol w (List.mem_cons_of_mem v hw)
      have hdd : dstPath dir v ≠ dstPath dir u :=
        fun e => hvu (hcol v (List.mem_cons_self v rest) e)
      cases hdst : fsLookup fs (dstPath dir v) with
      | some w =>
        rw [downloadStep_skip hdst]
        exact ih (s, fs, log) hmem' hcol' hnone
      | none =>
        rw [downloadStep_ok hdst (hdl s v)]
        have hnone' : fsLookup ((dstPath dir v, (dl s v).written) :: fs)
            (dstPath dir u) = none := by
          simp only [fsLookup, if_neg hdd]
          exact hnone
        have := ih ((dl s v).state,
          (dstPath dir v, (dl s v).written) :: fs, log ++ [v]) hmem' hcol' hnone'
        have hcnt : (log ++ [v]).count u = log.count u := by
          simp [List.count_append, List.count_cons, hvu]
        rw [hcnt] at this
        exact this

/-- If the destination of `u` already exists, the rest of the loop never
invokes the downloader on `u`. -/
theorem downloadFold_count_zero {σ : Type} {dl : σ → String → DlCall σ}
    {dir : String} (u : String) :
    ∀ (urls : List String) (acc : σ × List (String × String) × List String)
      (v : String), fsLookup acc.2.1 (dstPath dir u) = some v →
      ((urls.foldl (downloadStep dl dir) acc).2.2).count u = acc.2.2.count u := by
  intro urls
  induction urls with
  | nil => intro acc v _; rfl
  | cons w rest ih =>
    intro acc v hsome
    obtain ⟨s, fs, log⟩ := acc
    simp only at hsome
    rw [List.foldl_cons]
    by_cases hwu : w = u
    · subst hwu
      rw [downloadStep_skip hsome]
      exact ih (s, fs, log) v hsome
    · have hsome' : fsLookup (downloadStep dl dir (s, fs, log) w).2.1
          (dstPath dir u) = some v := downloadStep_frame hsome
      have hlog := downloadStep_log_cases dl dir w s fs log
      have hcnt : ((downloadStep dl dir (s, fs, log) w).2.2).count u =
          log.count u := by
        cases hlog with
        | inl h => rw [h]
        | inr h => rw [h]; simp [List.count_append, List.count_cons, hwu]
      calc ((rest.foldl (downloadStep dl dir)
              (downloadStep dl dir (s, fs, log) w)).2.2).count u
          = ((downloadStep dl dir (s, fs, log) w).2.2).count u :=
            ih _ v hsome'
        _ = log.count u := hcnt

/-- Every file present after the loop is either a file that was already
present or the complete output of a successful downloader call - provided
the downloader never raises `FileExistsError`, the one exception category
whose handler (line 54) skips the `os.remove`. -/
theorem downloadFold_complete {σ : Type} {dl : σ → String → DlCall σ}
    {dir : String} (hdl : ∀ s w, (dl s w).raised ≠ some PyExc.fileExists) :
    ∀ (urls : List String) (acc : σ × List (String × String) × List String)
      (p c : String),
      fsLookup ((urls.foldl (downloadStep dl dir) acc).2.1) p = some c →
      fsLookup acc.2.1 p = some c ∨
        ∃ s w, dstPath dir w = p ∧ (dl s w).raised = none ∧
          (dl s w).written = c := by
  intro urls
  induction urls with
  | nil => intro acc p c h; exact Or.inl h
  | cons v rest ih =>
    intro acc p c h
    obtain ⟨s, fs, log⟩ := acc
    rw [List.foldl_cons] at h
    cases ih _ p c h with
    | inr full => exact Or.inr full
    | inl hstep =>
      cases hdst : fsLookup fs (dstPath dir v) with
      | some w =>
        rw [downloadStep_skip hdst] at hstep
        exact Or.inl hstep
      | none =>
        cases hr : (dl s v).raised with
        | none =>
          rw [downloadStep_ok hdst hr] at hstep
          simp only [fsLookup] at hstep
          by_cases hp : dstPath dir v = p
          · rw [if_pos hp] at hstep
            refine Or.inr ⟨s, v, hp, hr, ?_⟩
            exact Option.some_injective _ hstep
          · rw [if_neg hp] at hstep
            exact Or.inl hstep
        | some k =>
          by_cases hk : k = PyExc.fileExists
          · subst hk; exact absurd hr (hdl s v)
          · rw [downloadStep_fail hdst hr hk] at hstep
            exact Or.inl hstep

/-! ## Helper lemmas: shape of hex digests -/

theorem hexDig_mem (n : Nat) : hexDig n ∈ hexDigits.data := by
  by_cases h : n < 16
  · interval_cases n <;> decide
  · have hlen : hexDigits.data.length ≤ n := by
      have : hexDigits.data.length = 16 := by decide
      omega
    rw [hexDig, List.getD_eq_default _ _ hlen]
    decide

theorem hexOfBytes_mem {bs : List Nat} {c : Char} (h : c ∈ hexOfBytes bs) :
    c ∈ hexDigits.data := by
  induction bs with
  | nil => cases h
  | cons b bs ih =>
    simp only [hexOfBytes, List.mem_cons] at h
    rcases h with h | h | h
    · rw [h]; exact hexDig_mem _
    · rw [h]; exact hexDig_mem _
    · exact ih h

theorem hexOfBytes_length (bs : List Nat) :
    (hexOfBytes bs).length = 2 * bs.length := by
  induction bs with
  | nil => rfl
  | cons b bs ih => simp [hexOfBytes, ih]; omega

theorem md5Digest_length (msg : List Nat) : (md5Digest msg).length = 16 := by
  simp [md5Digest, wordBytes]

theorem md5Hex_length (msg : List Nat) : (md5Hex msg).length = 32 := by
  have h1 := hexOfBytes_length (md5Digest msg)
  rw [md5Digest_length] at h1
  simpa [md5Hex, String.length] using h1

/-! ## Claims C1-C4, C8, C9 -/

/-- C1, counterexample: a transfer that writes bytes and then raises
`FileExistsError` - a local I/O failure, since `FileExistsError` subclasses
`OSError = IOError` - is caught by the `except FileExistsError` handler on
line 54, which does not run `os.remove`; the partially written destination
file survives `download_all`, contradicting the claim that any local I/O
failure raised by the transfer leads to deletion of the destination path. -/
theorem C1_counterexample :
    (dlRaisesFileExists () "a").raised = some PyExc.fileExists ∧
    fsLookup (downloadAllLoop ["a"] "d" dlRaisesFileExists () []).2.1
      (dstPath "d" "a") = some "par" := by
  constructor
  · rfl
  · decide

/-- C1 (amended): for every URL whose exclusive file creation succeeds but
whose transfer callable then raises an HTTP, transport, timeout, or local
I/O failure *other than `FileExistsError`*, the destination path is deleted
before `download_all` moves on (the directory returns to exactly its state
before the iteration, in which the destination was absent); and provided the
transfer never raises `FileExistsError`, every file present after
`download_all` is either a file that was present before or the complete
output of a successful transfer - never a partial write. -/
theorem C1_cleanup_on_failure {σ : Type} :
    (∀ (dl : σ → String → DlCall σ) (dir url : String) (s : σ)
       (fs : List (String × String)) (log : List String) (k : PyExc),
      fsLookup fs (dstPath dir url) = none →
      (dl s url).raised = some k → k ≠ PyExc.fileExists →
      (downloadStep dl dir (s, fs, log) url).2.1 = fs) ∧
    (∀ (dl : σ → String → DlCall σ) (dir : String),
      (∀ s w, (dl s w).raised ≠ some PyExc.fileExists) →
      ∀ (urls : List String) (s0 : σ) (fs0 : List (String × String))
        (p c : String),
        fsLookup (downloadAllLoop urls dir dl s0 fs0).2.1 p = some c →
        fsLookup fs0 p = some c ∨
          ∃ s w, dstPath dir w = p ∧ (dl s w).raised = none ∧
            (dl s w).written = c) := by
  constructor
  · intro dl dir url s fs log k h hr hk
    rw [downloadStep_fail h hr hk]
  · intro dl dir hdl urls s0 fs0 p c h
    exact downloadFold_complete hdl urls (s0, fs0, []) p c h

/-- C1 witness: a transfer raising `IOError` leaves the directory exactly as
it was (the created file is deleted), and in a run whose transfer never
raises `FileExistsError`, a file found afterwards is a complete successful
write. -/
theorem C1_witness :
    (downloadStep dlAlwaysIOError "d" (0, [], []) "a").2.1 = [] ∧
    (fsLookup ([] : List (String × String)) (dstPath "d" "a") = some "foobar" ∨
      ∃ s w, dstPath "d" w = dstPath "d" "a" ∧ (dlFoobar s w).raised = none ∧
        (dlFoobar s w).written = "foobar") :=
  ⟨C1_cleanup_on_failure.1 dlAlwaysIOError "d" "a" 0 [] [] PyExc.ioExc rfl
      rfl (by decide),
   C1_cleanup_on_failure.2 dlFoobar "d" (fun s w => by simp [dlFoobar])
      ["a"] 0 [] (dstPath "d" "a") "foobar" (by decide)⟩

/-- C2, counterexample: with a transfer that always fails with `IOError`,
the input `["a", "a"]` leads to *two* invocations of the transfer on `"a"`
(the failed first attempt removes the destination file, so the duplicate is
not deduplicated), contradicting the unconditional exactly-once claim. -/
theorem C2_counterexample :
    ((downloadAllLoop ["a", "a"] "d" dlAlwaysIOError 0 []).2.2).count "a" = 2 ∧
    (downloadAllLoop ["a", "a"] "d" dlAlwaysIOError 0 []).1 = 2 := by
  constructor
  · decide
  · decide

/-- C2 (amended): provided the transfer callable never raises, a URL is
dispatched to the transfer at most once however often it occurs in the
input; it is dispatched exactly once when it occurs, its destination is
initially absent, and no other input URL hashes to the same destination.
In particular, on input `["a", "a"]` with an empty directory and a transfer
writing `"foobar"`, afterwards exactly one file exists, it contains
`"foobar"`, and the transfer was invoked exactly once. -/
theorem C2_dedup {σ : Type} :
    (∀ (dl : σ → String → DlCall σ), (∀ s w, (dl s w).raised = none) →
      ∀ (urls : List String) (dir : String) (s0 : σ)
        (fs0 : List (String × String)) (u : String),
        ((downloadAllLoop urls dir dl s0 fs0).2.2).count u ≤ 1) ∧
    (∀ (dl : σ → String → DlCall σ), (∀ s w, (dl s w).raised = none) →
      ∀ (urls : List String) (dir : String) (s0 : σ)
        (fs0 : List (String × String)) (u : String),
        u ∈ urls →
        (∀ v ∈ urls, dstPath dir v = dstPath dir u → v = u) →
        fsLookup fs0 (dstPath dir u) = none →
        ((downloadAllLoop urls dir dl s0 fs0).2.2).count u = 1) ∧
    ((downloadAllLoop ["a", "a"] "d" dlFoobar 0 []).2.1 =
        [(dstPath "d" "a", "foobar")] ∧
      ((downloadAllLoop ["a", "a"] "d" dlFoobar 0 []).2.2).count "a" = 1 ∧
      (downloadAllLoop ["a", "a"] "d" dlFoobar 0 []).1 = 1) := by
  refine ⟨?_, ?_, ?_, ?_, ?_⟩
  · intro dl hdl urls dir s0 fs0 u
    refine le_trans (downloadFold_count_le hdl u urls (s0, fs0, [])) ?_
    simp only [List.count_nil]
    split <;> simp
  · intro dl hdl urls dir s0 fs0 u hmem hcol hnone
    have hge := downloadFold_count_ge hdl u urls (s0, fs0, []) hmem hcol hnone
    have hle := @downloadFold_count_le σ dl dir hdl u urls (s0, fs0, [])
    simp only [List.count_nil, Nat.zero_add] at hge hle
    rw [if_pos hnone] at hle
    simp only [downloadAllLoop]
    omega
  · decide
  · decide
  · decide

/-- C2 witness: the dedup bounds applied to the concrete `["a", "a"]`
scenario with the `"foobar"`-writing transfer. -/
theorem C2_witness :
    ((downloadAllLoop ["a", "b"] "d" dlFoobar 0 []).2.2).count "a" ≤ 1 ∧
    ((downloadAllLoop ["a", "a"] "d" dlFoobar 0 []).2.2).count "a" = 1 :=
  ⟨C2_dedup.1 dlFoobar (fun _ _ => rfl) ["a", "b"] "d" 0 [] "a",
   C2_dedup.2.1 dlFoobar (fun _ _ => rfl) ["a", "a"] "d" 0 [] "a"
      (by decide) (by decide) rfl⟩

/-- C3: `download_all` never raises past its own boundary for a single
URL's failure - for *every* downloader behaviour (any exception category on
any call) the function returns normally; only the shared setup
(`os.makedirs`, line 45) can make it raise.  In particular, on `["a", "b"]`
with a transfer that raises `IOError` on the first call and succeeds on the
second, afterwards the directory holds exactly one file, and the transfer
was invoked twice. -/
theorem C3_failure_isolation :
    (∀ (σ : Type) (dl : σ → String → DlCall σ) (urls : List String)
       (dir : String) (s0 : σ) (fs0 : List (String × String)),
      download_all true urls dir dl s0 fs0 =
        Except.ok (downloadAllLoop urls dir dl s0 fs0)) ∧
    (∀ (σ : Type) (dl : σ → String → DlCall σ) (urls : List String)
       (dir : String) (s0 : σ) (fs0 : List (String × String)),
      download_all false urls dir dl s0 fs0 = Except.error ()) ∧
    (((downloadAllLoop ["a", "b"] "d" dlFailFirst 0 []).2.1).length = 1 ∧
      (downloadAllLoop ["a", "b"] "d" dlFailFirst 0 []).2.2 = ["a", "b"] ∧
      (downloadAllLoop ["a", "b"] "d" dlFailFirst 0 []).1 = 2) := by
  refine ⟨fun σ dl urls dir s0 fs0 => rfl, fun σ dl urls dir s0 fs0 => rfl,
    ?_, ?_, ?_⟩
  · decide
  · decide
  · decide

/-- C4, counterexample: `r.raise_for_status()` raises only for status codes
in the 4xx/5xx ranges, so for the non-2xx status 304 `download` raises
nothing and streams the body into the sink - against the claim that every
non-2xx status yields an `HTTPStatusError` with nothing written. -/
theorem C4_counterexample :
    (304 < 200 ∨ 299 < 304) ∧
    download (HttpAttempt.response 304 ["x"] none) "" = ("x", none) := by
  exact ⟨Or.inr (by decide), by decide⟩

/-- C4 (amended): for every HTTP response whose status code is in the 4xx
or 5xx range, `download` fails with an `HTTPStatusError` carrying that
status code and the sink receives zero body bytes. -/
theorem C4_http_error :
    ∀ (status : Nat) (chunks : List String) (bodyErr : Option TransferExc)
      (sink : String), 400 ≤ status → status < 600 →
      download (HttpAttempt.response status chunks bodyErr) sink =
        (sink, some (TransferExc.httpStatus status)) := by
  intro status chunks bodyErr sink h1 h2
  simp [download, h1, h2]

/-- C4 witness: a 404 response with a pending body chunk produces
`HTTPStatusError 404` and an untouched (empty) sink. -/
theorem C4_witness :
    download (HttpAttempt.response 404 ["x"] none) "" =
      ("", some (TransferExc.httpStatus 404)) :=
  C4_http_error 404 ["x"] none "" (by decide) (by decide)

/-- C8: the destination path is the download directory joined with the
lowercase-hex MD5 digest of the URL's UTF-8 bytes; the mapping is a
function of the URL string (deterministic); every digest is 32 characters
drawn from `0123456789abcdef`; and the digest function agrees with the
RFC 1321 MD5 test vectors. -/
theorem C8_dst_path :
    (∀ dir url, dstPath dir url = pathJoin dir (md5Hex (utf8Bytes url))) ∧
    (∀ dir u v, u = v → dstPath dir u = dstPath dir v) ∧
    (∀ bs, (md5Hex bs).length = 32) ∧
    (∀ bs c, c ∈ (md5Hex bs).data → c ∈ hexDigits.data) ∧
    md5Hex (utf8Bytes "") = "d41d8cd98f00b204e9800998ecf8427e" ∧
    md5Hex (utf8Bytes "abc") = "900150983cd24fb0d6963f7d28e17f72" := by
  refine ⟨fun dir url => rfl, fun dir u v h => by rw [h], md5Hex_length,
    ?_, md5Hex_empty, md5Hex_abc⟩
  intro bs c hc
  exact hexOfBytes_mem hc

/-- C8 witness: determinism and the digest alphabet at concrete inputs. -/
theorem C8_witness :
    dstPath "d" "a" = dstPath "d" "a" ∧ '0' ∈ hexDigits.data :=
  ⟨C8_dst_path.2.1 "d" "a" "a" rfl,
   C8_dst_path.2.2.2.1 (utf8Bytes "a") '0' (by decide)⟩

/-- C9: when the destination path of a URL already exists, the iteration is
a no-op - the existing file keeps its content, nothing is deleted, and the
downloader is not invoked (neither on that URL in that iteration, nor ever
again on a URL whose destination persists); moreover any pre-existing file
survives the whole of `download_all` with unchanged content. -/
theorem C9_existing_file_untouched {σ : Type} :
    (∀ (dl : σ → String → DlCall σ) (dir url : String) (s : σ)
       (fs : List (String × String)) (log : List String) (v : String),
      fsLookup fs (dstPath dir url) = some v →
      downloadStep dl dir (s, fs, log) url = (s, fs, log)) ∧
    (∀ (dl : σ → String → DlCall σ) (dir : String) (urls : List String)
       (s0 : σ) (fs0 : List (String × String)) (p v : String),
      fsLookup fs0 p = some v →
      fsLookup (downloadAllLoop urls dir dl s0 fs0).2.1 p = some v) ∧
    (∀ (dl : σ → String → DlCall σ) (dir : String) (urls : List String)
       (s0 : σ) (fs0 : List (String × String)) (u v : String),
      fsLookup fs0 (dstPath dir u) = some v →
      ((downloadAllLoop urls dir dl s0 fs0).2.2).count u = 0) := by
  refine ⟨fun dl dir url s fs log v h => downloadStep_skip h,
    fun dl dir urls s0 fs0 p v h => downloadFold_frame urls (s0, fs0, []) h,
    fun dl dir urls s0 fs0 u v h => ?_⟩
  have := @downloadFold_count_zero σ dl dir u urls (s0, fs0, []) v h
  simpa [downloadAllLoop] using this

/-- C9 witness: with `<dst of "a">` already present with content `"old"`,
processing `["a"]` changes nothing: the step is the identity, the file still
reads `"old"` afterwards, and the downloader is never invoked. -/
theorem C9_witness :
    downloadStep dlFoobar "d" (0, [(dstPath "d" "a", "old")], []) "a" =
        (0, [(dstPath "d" "a", "old")], []) ∧
    fsLookup (downloadAllLoop ["a"] "d" dlFoobar 0
        [(dstPath "d" "a", "old")]).2.1 (dstPath "d" "a") = some "old" ∧
    ((downloadAllLoop ["a"] "d" dlFoobar 0
        [(dstPath "d" "a", "old")]).2.2).count "a" = 0 :=
  ⟨C9_existing_file_untouched.1 dlFoobar "d" "a" 0 _ [] "old" (by decide),
   C9_existing_file_untouched.2.1 dlFoobar "d" ["a"] 0 _ (dstPath "d" "a")
      "old" (by decide),
   C9_existing_file_untouched.2.2 dlFoobar "d" ["a"] 0 _ "a" "old" (by decide)⟩

/-! ## Helper lemmas: the dispatcher transition system -/

theorem countNone_append_some {T : Type} (q : List (Option T)) (j : T) :
    countNone (q ++ [some j]) = countNone q := by
  simp [countNone, List.countP_append, List.countP_cons]

theorem countNone_append_none {T : Type} (q : List (Option T)) :
    countNone (q ++ [(none : Option T)]) = countNone q + 1 := by
  simp [countNone, List.countP_append, List.countP_cons]

theorem countNone_cons_some {T : Type} (q : List (Option T)) (j : T) :
    countNone (some j :: q) = countNone q := by
  simp [countNone, List.countP_cons]

theorem countNone_cons_none {T : Type} (q : List (Option T)) :
    countNone ((none : Option T) :: q) = countNone q + 1 := by
  simp [countNone, List.countP_cons]

theorem dInv_init {T : Type} (jobs : List T) (n : Nat) :
    DInv jobs n (dInit jobs n) := by
  refine ⟨?_, ?_, ?_, ?_⟩ <;> simp [dInit, countNone, DInv]

theorem dInv_step {T : Type} {jobs : List T} {n : Nat} {c c' : DConfig T}
    (hinv : DInv jobs n c) (hstep : DStep n c c') : DInv jobs n c' := by
  obtain ⟨h1, h2, h3, h4⟩ := hinv
  cases hstep with
  | pushJob j rest htp hput =>
    refine ⟨?_, ?_, ?_, ?_⟩ <;> dsimp only
    · simpa [countNone_append_some] using h1
    · intro _
      exact h2 (by rw [htp]; simp)
    · simp only [htp, List.map_cons] at h3
      simpa using h3
    · intro hj
      exact absurd ((h4 hj).1) (by rw [htp]; simp)
  | pushSentinel k htp hsent hput =>
    refine ⟨?_, ?_, ?_, ?_⟩ <;> dsimp only
    · rw [countNone_append_none]
      omega
    · intro h; exact absurd htp h
    · simp only [htp, hsent, List.map_nil, List.nil_append,
        List.append_nil] at h3 ⊢
      rw [List.append_assoc]
      exact h3
    · intro hj
      exact absurd ((h4 hj).2.1) (by rw [hsent]; simp)
  | popJob j q hq hdone =>
    refine ⟨?_, h2, h3, ?_⟩ <;> dsimp only
    · rw [hq, countNone_cons_some] at h1
      exact h1
    · intro hj
      have := (h4 hj).2.2
      omega
  | popSentinel q hq hdone =>
    refine ⟨?_, h2, h3, ?_⟩ <;> dsimp only
    · rw [hq, countNone_cons_none] at h1
      omega
    · intro hj
      have := (h4 hj).2.2
      omega
  | join htp hsent hdone hj =>
    exact ⟨h1, h2, h3, fun _ => ⟨htp, hsent, hdone⟩⟩

theorem dInv_reachable {T : Type} {jobs : List T} {n : Nat} {c : DConfig T}
    (h : DReach jobs n c) : DInv jobs n c := by
  induction h with
  | refl => exact dInv_init jobs n
  | tail _ hstep ih => exact dInv_step ih hstep

theorem dMeasure_step {T : Type} {n : Nat} {c c' : DConfig T}
    (hstep : DStep n c c') : dMeasure n c' < dMeasure n c := by
  cases hstep with
  | pushJob j rest htp hput =>
    have hlen : (c.queue ++ [some j]).length = c.queue.length + 1 := by simp
    simp only [dMeasure, htp, hlen, List.length_cons]
    omega
  | pushSentinel k htp hsent hput =>
    have hlen : (c.queue ++ [(none : Option T)]).length = c.queue.length + 1 := by
      simp
    simp only [dMeasure, hsent, hlen]
    omega
  | popJob j q hq hdone =>
    simp only [dMeasure, hq, List.length_cons]
    omega
  | popSentinel q hq hdone =>
    simp only [dMeasure, hq, List.length_cons]
    omega
  | join htp hsent hdone hj =>
    simp [dMeasure, hj]

/-- No infinite execution: the measure strictly decreases at every step. -/
theorem dispatch_no_infinite_run {T : Type} (n : Nat)
    (f : Nat → DConfig T)
    (hstep : ∀ k, DStep n (f k) (f (k + 1))) : False := by
  have hdesc : ∀ k, dMeasure n (f (k + 1)) < dMeasure n (f k) :=
    fun k => dMeasure_step (hstep k)
  have hbound : ∀ k, dMeasure n (f k) + k ≤ dMeasure n (f 0) := by
    intro k
    induction k with
    | zero => simp
    | succ k ih =>
      have := hdesc k
      omega
  have := hbound (dMeasure n (f 0) + 1)
  omega

/-- Progress: with at least one worker, every non-joined configuration
satisfying the invariant can take a step (no deadlock). -/
theorem dispatch_progress {T : Type} {jobs : List T} {n : Nat}
    (hn : 1 ≤ n) {c : DConfig T} (hinv : DInv jobs n c)
    (hj : c.joined = false) : ∃ c', DStep n c c' := by
  obtain ⟨h1, h2, h3, h4⟩ := hinv
  cases htp : c.toPush with
  | cons j rest =>
    by_cases hput : putReady n c
    · exact ⟨_, DStep.pushJob c j rest htp hput⟩
    · simp only [putReady, not_forall] at hput
      obtain ⟨hpos, hlen⟩ := hput
      have hsent : c.sentinels = n := h2 (by rw [htp]; simp)
      have hcn : countNone c.queue = 0 := by omega
      have hdone : c.done = 0 := by omega
      cases hq : c.queue with
      | nil => rw [hq] at hlen; simp at hlen; omega
      | cons x q =>
        cases x with
        | none =>
          rw [hq, countNone_cons_none] at hcn
          omega
        | some j' =>
          exact ⟨_, DStep.popJob c j' q hq (by omega)⟩
  | nil =>
    cases hsent : c.sentinels with
    | succ k =>
      by_cases hput : putReady n c
      · exact ⟨_, DStep.pushSentinel c k htp hsent hput⟩
      · simp only [putReady, not_forall] at hput
        obtain ⟨hpos, hlen⟩ := hput
        have hdone : c.done < n := by omega
        cases hq : c.queue with
        | nil => rw [hq] at hlen; simp at hlen; omega
        | cons x q =>
          cases x with
          | none => exact ⟨_, DStep.popSentinel c q hq hdone⟩
          | some j' => exact ⟨_, DStep.popJob c j' q hq hdone⟩
    | zero =>
      by_cases hdone : c.done = n
      · exact ⟨_, DStep.join c htp hsent hdone hj⟩
      · have hdlt : c.done < n := by omega
        have hcn : 0 < countNone c.queue := by omega
        cases hq : c.queue with
        | nil => rw [hq] at hcn; simp [countNone] at hcn
        | cons x q =>
          cases x with
          | none => exact ⟨_, DStep.popSentinel c q hq hdlt⟩
          | some j' => exact ⟨_, DStep.popJob c j' q hq hdlt⟩

/-- C5: in every completed execution of `_dispatch` (one that has performed
the final joins), the producer's enqueue history is exactly the job list, in
input order, followed by exactly one end-of-stream sentinel per worker; the
producer has no pending jobs or sentinels left; and all `n` workers have
terminated - no worker remains alive after `_dispatch` returns. -/
theorem C5_producer_protocol {T : Type} (jobs : List T) (n : Nat)
    (c : DConfig T) (hreach : DReach jobs n c) (hj : c.joined = true) :
    c.pushed = jobs.map some ++ List.replicate n none ∧
    c.toPush = [] ∧ c.sentinels = 0 ∧ c.done = n := by
  obtain ⟨h1, h2, h3, h4⟩ := dInv_reachable hreach
  obtain ⟨htp, hsent, hdone⟩ := h4 hj
  refine ⟨?_, htp, hsent, hdone⟩
  rw [htp, hsent] at h3
  simpa using h3

/-- C5 witness: the completed single-job, single-worker execution reached by
push job / pop job / push sentinel / pop sentinel / join. -/
theorem C5_witness :
    (⟨[], 0, [], 1, true, [some "a", none]⟩ : DConfig String).pushed =
        ["a"].map some ++ List.replicate 1 none ∧
    (⟨[], 0, [], 1, true, [some "a", none]⟩ : DConfig String).toPush = [] ∧
    (⟨[], 0, [], 1, true, [some "a", none]⟩ : DConfig String).sentinels = 0 ∧
    (⟨[], 0, [], 1, true, [some "a", none]⟩ : DConfig String).done = 1 := by
  have s1 : DStep 1 (dInit ["a"] 1)
      ⟨[], 1, [some "a"], 0, false, [some "a"]⟩ :=
    DStep.pushJob _ "a" [] rfl (fun _ => by decide)
  have s2 : DStep 1 (⟨[], 1, [some "a"], 0, false, [some "a"]⟩ : DConfig String)
      ⟨[], 1, [], 0, false, [some "a"]⟩ :=
    DStep.popJob _ "a" [] rfl (by decide)
  have s3 : DStep 1 (⟨[], 1, [], 0, false, [some "a"]⟩ : DConfig String)
      ⟨[], 0, [none], 0, false, [some "a", none]⟩ :=
    DStep.pushSentinel _ 0 rfl rfl (fun _ => by decide)
  have s4 : DStep 1 (⟨[], 0, [none], 0, false, [some "a", none]⟩ : DConfig String)
      ⟨[], 0, [], 1, false, [some "a", none]⟩ :=
    DStep.popSentinel _ [] rfl (by decide)
  have s5 : DStep 1 (⟨[], 0, [], 1, false, [some "a", none]⟩ : DConfig String)
      ⟨[], 0, [], 1, true, [some "a", none]⟩ :=
    DStep.join _ rfl rfl rfl rfl
  have hreach : DReach ["a"] 1 ⟨[], 0, [], 1, true, [some "a", none]⟩ :=
    Relation.ReflTransGen.head s1 (Relation.ReflTransGen.head s2
      (Relation.ReflTransGen.head s3 (Relation.ReflTransGen.head s4
        (Relation.ReflTransGen.head s5 Relation.ReflTransGen.refl))))
  exact C5_producer_protocol ["a"] 1 _ hreach rfl

/-- C6: for every worker count `n ≥ 1` and every job list - including the
empty list and lists shorter than `n` - `_dispatch` cannot run forever (no
infinite execution exists) and cannot deadlock: any reachable configuration
from which no step is possible is one where the joins have completed and all
`n` workers have terminated, so no residual worker threads remain. -/
theorem C6_dispatch_terminates {T : Type} (jobs : List T) (n : Nat)
    (hn : 1 ≤ n) :
    (∀ f : Nat → DConfig T, f 0 = dInit jobs n →
      (∀ k, DStep n (f k) (f (k + 1))) → False) ∧
    (∀ c : DConfig T, DReach jobs n c → (∀ c', ¬ DStep n c c') →
      c.joined = true ∧ c.done = n) := by
  constructor
  · intro f _ hstep
    exact dispatch_no_infinite_run n f hstep
  · intro c hreach hstuck
    have hinv := dInv_reachable hreach
    have hj : c.joined = true := by
      by_contra hj
      have hj' : c.joined = false := by
        cases hcj : c.joined
        · rfl
        · exact absurd hcj hj
      obtain ⟨c', hc'⟩ := dispatch_progress hn hinv hj'
      exact hstuck c' hc'
    exact ⟨hj, (hinv.2.2.2 hj).2.2⟩

/-- C6 witness: with zero jobs and one worker, the execution
push sentinel / pop sentinel / join reaches a configuration that allows no
further step, and that configuration is joined with the worker terminated. -/
theorem C6_witness :
    (⟨[], 0, [], 1, true, [none]⟩ : DConfig String).joined = true ∧
    (⟨[], 0, [], 1, true, [none]⟩ : DConfig String).done = 1 := by
  have s1 : DStep 1 (dInit ([] : List String) 1)
      ⟨[], 0, [none], 0, false, [none]⟩ :=
    DStep.pushSentinel _ 0 rfl rfl (fun _ => by decide)
  have s2 : DStep 1 (⟨[], 0, [none], 0, false, [none]⟩ : DConfig String)
      ⟨[], 0, [], 1, false, [none]⟩ :=
    DStep.popSentinel _ [] rfl (by decide)
  have s3 : DStep 1 (⟨[], 0, [], 1, false, [none]⟩ : DConfig String)
      ⟨[], 0, [], 1, true, [none]⟩ :=
    DStep.join _ rfl rfl rfl rfl
  have hreach : DReach ([] : List String) 1 ⟨[], 0, [], 1, true, [none]⟩ :=
    Relation.ReflTransGen.head s1 (Relation.ReflTransGen.head s2
      (Relation.ReflTransGen.head s3 Relation.ReflTransGen.refl))
  have hstuck : ∀ c', ¬ DStep 1
      (⟨[], 0, [], 1, true, [none]⟩ : DConfig String) c' := by
    intro c' h
    cases h <;> simp_all
  exact (C6_dispatch_terminates [] 1 (by decide)).2 _ hreach hstuck

/-! ## Helper lemmas: the URL validator -/

theorem schemeChar_toNat {c : Char} (h : schemeChar c = true) :
    32 < c.toNat ∧ c.toNat ≠ 58 ∧ c.toNat ≠ 9 ∧ c.toNat ≠ 10 ∧
      c.toNat ≠ 13 := by
  simp only [schemeChar, decide_eq_true_eq] at h
  rcases h with h | h | h | h | h
  · simp only [Char.isAlpha, Char.isUpper, Char.isLower, Bool.or_eq_true,
      Bool.and_eq_true, decide_eq_true_eq] at h
    rcases h with ⟨h1, h2⟩ | ⟨h1, h2⟩
    · have a1 : 65 ≤ c.toNat := h1
      have a2 : c.toNat ≤ 90 := h2
      omega
    · have a1 : 97 ≤ c.toNat := h1
      have a2 : c.toNat ≤ 122 := h2
      omega
  · simp only [Char.isDigit, Bool.and_eq_true, decide_eq_true_eq] at h
    have a1 : 48 ≤ c.toNat := h.1
    have a2 : c.toNat ≤ 57 := h.2
    omega
  · subst h; decide
  · subst h; decide
  · subst h; decide

theorem isAlpha_schemeChar {c : Char} (h : c.isAlpha = true) :
    schemeChar c = true := by
  simp [schemeChar, h]

theorem schemeChar_not_c0 {c : Char} (h : schemeChar c = true) :
    c0ControlOrSpace c = false := by
  have := (schemeChar_toNat h).1
  simp only [c0ControlOrSpace, decide_eq_false_iff_not]
  omega

theorem schemeChar_not_removed {c : Char} (h : schemeChar c = true) :
    unsafeUrlChar c = false := by
  obtain ⟨-, -, h9, h10, h13⟩ := schemeChar_toNat h
  simp only [unsafeUrlChar, decide_eq_false_iff_not]
  rintro (e | e | e) <;> rw [e] at h9 h10 h13
  · exact h9 (by decide)
  · exact h13 (by decide)
  · exact h10 (by decide)

theorem schemeChar_ne_colon {c : Char} (h : schemeChar c = true) :
    c ≠ ':' := by
  have h58 := (schemeChar_toNat h).2.1
  intro e
  rw [e] at h58
  exact h58 (by decide)

theorem findIdx?_first_after {α : Type} {p : α → Bool} {xs : List α} {y : α}
    (ys : List α) (hxs : ∀ x ∈ xs, p x = false) (hy : p y = true) :
    ∀ i, List.findIdx? p (xs ++ y :: ys) i = some (i + xs.length) := by
  induction xs with
  | nil =>
    intro i
    simp [List.findIdx?_cons, hy]
  | cons x xs ih =>
    intro i
    have hx : p x = false := hxs x (List.mem_cons_self x xs)
    rw [List.cons_append, List.findIdx?_cons, hx]
    simp only [Bool.false_eq_true, if_false]
    rw [ih (fun a ha => hxs a (List.mem_cons_of_mem x ha)) (i + 1)]
    congr 1
    simp
    omega

theorem takeWhile_append_all {α : Type} {p : α → Bool} {xs : List α}
    (ys : List α) (h : ∀ x ∈ xs, p x = true) :
    List.takeWhile p (xs ++ ys) = xs ++ List.takeWhile p ys := by
  induction xs with
  | nil => simp
  | cons x xs ih =>
    rw [List.cons_append, List.takeWhile_cons, h x (List.mem_cons_self x xs)]
    simp only [if_true]
    rw [ih (fun a ha => h a (List.mem_cons_of_mem x ha))]
    rfl

/-- On a well-formed absolute URL `scheme://host[:port]/path` - scheme
nonempty, starting with an ASCII letter and made of `scheme_chars`;
authority nonempty and free of delimiters, brackets and tab/CR/LF; path
empty or starting with `'/'` but otherwise arbitrary - the urlsplit model
returns the lowercased scheme and exactly the authority. -/
theorem urlsplitSN_wellFormed (scheme hst path : String)
    (hs0 : scheme ≠ "") (hs1 : ∀ c ∈ scheme.data, schemeChar c = true)
    (hs2 : scheme.data.head?.map Char.isAlpha = some true)
    (hh1 : ∀ c ∈ hst.data, netlocDelim c = false ∧ unsafeUrlChar c = false ∧
      c ≠ '[' ∧ c ≠ ']')
    (hp : path = "" ∨ path.data.head? = some '/') :
    urlsplitSN (scheme ++ "://" ++ hst ++ path) =
      Except.ok (String.mk (scheme.data.map asciiLower), hst) := by
  obtain ⟨c0, S', hS⟩ : ∃ c0 S', scheme.data = c0 :: S' := by
    cases hSd : scheme.data with
    | nil =>
      exfalso
      apply hs0
      cases scheme with
      | mk l =>
        simp only at hSd
        rw [hSd]
    | cons a l => exact ⟨a, l, rfl⟩
  have hc0 : c0.isAlpha = true := by
    rw [hS] at hs2; simpa using hs2
  have hc0sc : schemeChar c0 = true :=
    hs1 c0 (by rw [hS]; exact List.mem_cons_self _ _)
  have hdata : (scheme ++ "://" ++ hst ++ path).data =
      c0 :: (S' ++ (':' :: '/' :: '/' :: (hst.data ++ path.data))) := by
    simp only [String.data_append, hS, List.cons_append, List.append_assoc]
    rfl
  -- step 1: the C0-control/space lstrip removes nothing
  have hstep1 : ((scheme ++ "://" ++ hst ++ path).data).dropWhile
        c0ControlOrSpace =
      c0 :: (S' ++ (':' :: '/' :: '/' :: (hst.data ++ path.data))) := by
    rw [hdata, List.dropWhile_cons, schemeChar_not_c0 hc0sc]
    simp
  -- step 2: tab/CR/LF removal touches at most the path
  have hqS : ∀ c ∈ c0 :: S', (fun c => ! unsafeUrlChar c) c = true := by
    intro c hc
    have : schemeChar c = true := hs1 c (by rw [hS]; exact hc)
    simp [schemeChar_not_removed this]
  have hqH : ∀ c ∈ hst.data, (fun c => ! unsafeUrlChar c) c = true := by
    intro c hc
    simp [(hh1 c hc).2.1]
  have hstep2 : (c0 :: (S' ++ (':' :: '/' :: '/' ::
        (hst.data ++ path.data)))).filter (fun c => ! unsafeUrlChar c) =
      c0 :: (S' ++ (':' :: '/' :: '/' :: (hst.data ++
        path.data.filter (fun c => ! unsafeUrlChar c)))) := by
    have h1 : (c0 :: (S' ++ (':' :: '/' :: '/' :: (hst.data ++ path.data))))
        = (c0 :: S') ++ [':', '/', '/'] ++ hst.data ++ path.data := by
      simp
    have h2 : (c0 :: (S' ++ (':' :: '/' :: '/' :: (hst.data ++
          path.data.filter (fun c => ! unsafeUrlChar c)))))
        = (c0 :: S') ++ [':', '/', '/'] ++ hst.data ++
            path.data.filter (fun c => ! unsafeUrlChar c) := by
      simp
    rw [h1, h2, List.filter_append, List.filter_append, List.filter_append,
      List.filter_eq_self.mpr hqS, List.filter_eq_self.mpr hqH]
    rfl
  -- abbreviations for the suffix after the scheme
  set fP : List Char := path.data.filter (fun c => ! unsafeUrlChar c) with hfP
  have hshape : c0 :: (S' ++ (':' :: '/' :: '/' :: (hst.data ++ fP))) =
      (c0 :: S') ++ ':' :: ('/' :: '/' :: (hst.data ++ fP)) := by simp
  -- step 3: the first ':' sits immediately after the scheme
  have hfind : List.findIdx? (fun c => c = ':')
      ((c0 :: S') ++ ':' :: ('/' :: '/' :: (hst.data ++ fP))) 0 =
      some ((c0 :: S').length) := by
    have hxs : ∀ x ∈ c0 :: S', (fun c => decide (c = ':')) x = false := by
      intro x hx
      have hsc : schemeChar x = true := hs1 x (by rw [hS]; exact hx)
      simp [schemeChar_ne_colon hsc]
    have hy : (fun c => decide (c = ':')) ':' = true := by decide
    simpa using findIdx?_first_after ('/' :: '/' :: (hst.data ++ fP)) hxs hy 0
  have hsplit : splitScheme ((c0 :: S') ++ ':' :: ('/' :: '/' ::
        (hst.data ++ fP))) =
      ((c0 :: S').map asciiLower, '/' :: '/' :: (hst.data ++ fP)) := by
    rw [splitScheme, hfind]
    have hcond : 0 < (c0 :: S').length ∧
        (((c0 :: S') ++ ':' :: ('/' :: '/' :: (hst.data ++ fP))).take
          (c0 :: S').length).all schemeChar = true ∧
        (((c0 :: S') ++ ':' :: ('/' :: '/' :: (hst.data ++
          fP))).head?.map Char.isAlpha = some true) := by
      refine ⟨by simp, ?_, by simp [hc0]⟩
      rw [List.take_left]
      rw [List.all_eq_true]
      intro x hx
      exact hs1 x (by rw [hS]; exact hx)
    dsimp only
    rw [if_pos hcond, List.take_left]
    have hdrop2 : (((c0 :: S') ++ ':' :: ('/' :: '/' :: (hst.data ++
        fP)))).drop ((c0 :: S').length + 1) = '/' :: '/' :: (hst.data ++ fP) := by
      have hsplitlist : (c0 :: S') ++ ':' :: ('/' :: '/' :: (hst.data ++ fP)) =
          ((c0 :: S') ++ [':']) ++ ('/' :: '/' :: (hst.data ++ fP)) := by simp
      have hlen : (c0 :: S').length + 1 = ((c0 :: S') ++ [':']).length := by
        simp
      rw [hsplitlist, hlen, List.drop_left]
    rw [hdrop2]
  -- step 4: the authority is the full host part
  have hnet : (hst.data ++ fP).takeWhile (fun c => ! netlocDelim c) =
      hst.data := by
    rw [takeWhile_append_all fP (fun c hc => by simp [(hh1 c hc).1])]
    have hfPempty : fP.takeWhile (fun c => ! netlocDelim c) = [] := by
      cases hp with
      | inl hpe =>
        rw [hfP, hpe]
        rfl
      | inr hph =>
        obtain ⟨P', hP⟩ : ∃ P', path.data = '/' :: P' := by
          cases hPd : path.data with
          | nil => rw [hPd] at hph; cases hph
          | cons a l =>
            rw [hPd] at hph
            simp only [List.head?_cons, Option.some.injEq] at hph
            exact ⟨l, by rw [hph]⟩
        rw [hfP, hP]
        rfl
    rw [hfPempty, List.append_nil]
  have hnb : ¬ (('[' ∈ hst.data ∧ ']' ∉ hst.data) ∨
      (']' ∈ hst.data ∧ '[' ∉ hst.data)) := by
    rintro (⟨hm, -⟩ | ⟨hm, -⟩)
    · exact (hh1 '[' hm).2.2.1 rfl
    · exact (hh1 ']' hm).2.2.2 rfl
  -- assemble
  rw [urlsplitSN, hstep1, hstep2, hshape, hsplit]
  simp only [List.take_succ_cons, List.take_zero, List.drop_succ_cons,
    List.drop_zero, hnet]
  rw [if_pos trivial, if_neg hnb, hS]

/-- Helper for C10: everything `_read_urls` yields is the stripped form of
some processed line, in input order, and is nonempty. -/
theorem readUrls_sublist :
    ∀ (ls ys : List String), readUrls ls = Except.ok ys →
      List.Sublist ys (ls.map pyStrip) ∧ ∀ y ∈ ys, y ≠ "" := by
  intro ls
  induction ls with
  | nil =>
    intro ys h
    simp only [readUrls, Except.ok.injEq] at h
    subst h
    exact ⟨List.nil_sublist _, by simp⟩
  | cons line ls ih =>
    intro ys h
    simp only [readUrls] at h
    by_cases ht : pyStrip line = ""
    · rw [if_pos ht] at h
      obtain ⟨hsub, hne⟩ := ih ys h
      exact ⟨hsub.cons _, hne⟩
    · rw [if_neg ht] at h
      cases hv : isValidUrlBool (pyStrip line) with
      | error e => rw [hv] at h; cases h
      | ok b =>
        rw [hv] at h
        cases b with
        | false =>
          obtain ⟨hsub, hne⟩ := ih ys h
          exact ⟨hsub.cons _, hne⟩
        | true =>
          cases hrec : readUrls ls with
          | error e => rw [hrec] at h; cases h
          | ok ys' =>
            rw [hrec] at h
            simp only [Except.map, Except.ok.injEq] at h
            subst h
            obtain ⟨hsub, hne⟩ := ih ys' hrec
            refine ⟨hsub.cons₂ _, ?_⟩
            intro y hy
            cases hy with
            | head => exact ht
            | tail _ hy' => exact hne y hy'

/-- C7: line 116 is `return scheme and netloc`, so `_is_valid_url` returns a
*string*, not the `bool` promised by its annotation and docstring: on
`"http://foo/bar"` it returns the netloc string `"foo"`, not `True`.  The
intended boolean behaviour does hold for the truthiness of the returned
value: it is falsy whenever the parsed scheme or authority is empty, and
truthy on every `scheme://host[:port]/path` string - with an arbitrary
(e.g. Unicode) path - as the docstring describes. -/
theorem C7_validator :
    isValidUrlPy "http://foo/bar" = Except.ok "foo" ∧
    (∀ s sch nl, urlsplitSN s = Except.ok (sch, nl) → (sch = "" ∨ nl = "") →
      isValidUrlBool s = Except.ok false) ∧
    (∀ scheme hst path : String, scheme ≠ "" →
      (∀ c ∈ scheme.data, schemeChar c = true) →
      scheme.data.head?.map Char.isAlpha = some true →
      hst ≠ "" →
      (∀ c ∈ hst.data, netlocDelim c = false ∧ unsafeUrlChar c = false ∧
        c ≠ '[' ∧ c ≠ ']') →
      (path = "" ∨ path.data.head? = some '/') →
      isValidUrlBool (scheme ++ "://" ++ hst ++ path) = Except.ok true) := by
  refine ⟨rfl, ?_, ?_⟩
  · intro s sch nl h hd
    rw [isValidUrlBool, isValidUrlPy, h]
    rcases hd with hd | hd
    · subst hd
      simp [Except.map, pyTruthy]
    · subst hd
      by_cases hsch : sch = ""
      · subst hsch
        simp [Except.map, pyTruthy]
      · simp [Except.map, pyTruthy, hsch]
  · intro scheme hst path h0 h1 h2 hh0 hh1 hp
    rw [isValidUrlBool, isValidUrlPy,
      urlsplitSN_wellFormed scheme hst path h0 h1 h2 hh1 hp]
    dsimp only
    have hne : String.mk (scheme.data.map asciiLower) ≠ "" := by
      cases hSd : scheme.data with
      | nil =>
        exfalso
        apply h0
        cases scheme with
        | mk l =>
          simp only at hSd
          rw [hSd]
      | cons a l =>
        simp [hSd, String.ext_iff]
    rw [if_neg hne]
    simp [Except.map, pyTruthy, hh0]

/-- C7 witness: the truthiness contract at two of the repository's own test
strings - falsy on `"localhost:21/some/file"` (empty authority), truthy on
`"http://foo:8080/El Niño/"` (Unicode path). -/
theorem C7_witness :
    isValidUrlBool "localhost:21/some/file" = Except.ok false ∧
    isValidUrlBool ("http" ++ "://" ++ "foo:8080" ++ "/El Niño/") =
      Except.ok true :=
  ⟨C7_validator.2.1 "localhost:21/some/file" "localhost" "" rfl
      (Or.inr rfl),
   C7_validator.2.2 "http" "foo:8080" "/El Niño/" (by decide) (by decide)
      (by decide) (by decide) (by decide) (Or.inr (by decide))⟩

/-- C10: every string `_read_urls` yields is the stripped form of one of its
input lines, in input order, and is nonempty (so what is later validated,
hashed and downloaded is the stripped form, never a raw line); a line that
strips to empty is silently skipped. -/
theorem C10_read_urls :
    (∀ (ls ys : List String), readUrls ls = Except.ok ys →
      List.Sublist ys (ls.map pyStrip)) ∧
    (∀ (ls ys : List String), readUrls ls = Except.ok ys →
      ∀ y ∈ ys, y ≠ "") ∧
    (∀ (line : String) (ls : List String), pyStrip line = "" →
      readUrls (line :: ls) = readUrls ls) := by
  refine ⟨fun ls ys h => (readUrls_sublist ls ys h).1,
    fun ls ys h => (readUrls_sublist ls ys h).2, ?_⟩
  intro line ls h
  simp only [readUrls, h]
  rfl

/-- C10 witness: on lines `["  http://a/b  ", "", "x"]` the reader yields
exactly the stripped `"http://a/b"`, a sublist of the stripped lines, and
the empty line is skipped. -/
theorem C10_witness :
    List.Sublist ["http://a/b"] (["  http://a/b  ", "", "x"].map pyStrip) ∧
    readUrls ["", "x"] = readUrls ["x"] :=
  ⟨C10_read_urls.1 ["  http://a/b  ", "", "x"] ["http://a/b"] rfl,
   C10_read_urls.2.2 "" ["x"] rfl⟩
